import Mathlib

/-!
Verification of the OCI chart-cache core of the helm registry client.

The development shallowly embeds the Go sources:
  internal/experimental/registry/cache.go   (Cache: StoreChartAtRef, FetchChartByRef,
                                             RemoveChartByRef, ListAllCharts,
                                             manifestDescriptorToChart, storeBlob, fetchBlob)
  internal/experimental/registry/client.go  (Client.PullChart)
  pkg/registry/index.go                     (OCIIndex: AddManifest, StoreBlob, FetchBlob,
                                             DeleteBlob, DeleteManifestByRef, Save,
                                             ensureOCILayoutFile)
  pkg/registry/client.go                    (updateIndexJson)

Conventions of the embedding:
  - Byte sequences are lists of naturals (Bytes).
  - SHA-256 is an external library (crypto/sha256, opencontainers/go-digest); it is
    modelled as a function parameter hash from Bytes to String standing for the
    lowercase hex digest.  Theorems that need collision-freeness take injectivity
    of hash as a hypothesis, mirroring the spec assumption that SHA collisions are
    impossible.
  - JSON serialization (encoding/json) is deterministic and injective on the record
    types involved; it is modelled by concrete injective encoders into Bytes with
    matching decoders.
  - Go map reads with a missing key yield the zero value; annotation lookups model
    this with a default of the empty string.
  - Go nil-pointer dereference is modelled as a GoErr.goPanic result.
  - File-system state is a record of the OCI layout files; functions that touch the
    disk also return a trace of file operations (FsOp) so that atomicity properties
    are expressible.  Directory creation and stat calls are not recorded.
-/

/-- Byte strings of the Go sources, abstracted to lists of naturals. -/
abbrev Bytes := List Nat

/-- Length-prefixed encoding of a string: length then the code points. -/
def encodeStr (s : String) : Bytes :=
  s.data.length :: s.data.map Char.toNat

/-- Decoder matching encodeStr; returns the string and the remaining bytes. -/
def decodeStr : Bytes → Option (String × Bytes)
  | [] => none
  | n :: rest =>
    if n ≤ rest.length then
      some (String.mk ((rest.take n).map Char.ofNat), rest.drop n)
    else
      none

theorem decodeStr_encodeStr (s : String) (t : Bytes) :
    decodeStr (encodeStr s ++ t) = some (s, t) := by
  simp [encodeStr, decodeStr, List.take_append_of_le_length, List.drop_append_of_le_length,
    List.take_left, List.drop_left]
  cases s with
  | mk data =>
    apply congrArg
    apply List.map_id''
    intro c
    exact Char.ofNat_toNat c

/-- Length-prefixed encoding of a list given an element encoder. -/
def encodeList (enc : α → Bytes) (l : List α) : Bytes :=
  l.length :: l.flatMap enc

/-- Decoder for a counted sequence of elements. -/
def decodeListAux (dec : Bytes → Option (α × Bytes)) : Nat → Bytes → Option (List α × Bytes)
  | 0, bs => some ([], bs)
  | n + 1, bs => do
    let (a, r) ← dec bs
    let (as, r2) ← decodeListAux dec n r
    some (a :: as, r2)

/-- Decoder matching encodeList. -/
def decodeList (dec : Bytes → Option (α × Bytes)) : Bytes → Option (List α × Bytes)
  | [] => none
  | n :: rest => decodeListAux dec n rest

theorem decodeListAux_flatMap (dec : Bytes → Option (α × Bytes)) (enc : α → Bytes)
    (hrt : ∀ a t, dec (enc a ++ t) = some (a, t)) (l : List α) (t : Bytes) :
    decodeListAux dec l.length (l.flatMap enc ++ t) = some (l, t) := by
  induction l with
  | nil => simp [decodeListAux]
  | cons a as ih =>
    simp only [List.length_cons, List.flatMap_cons, List.append_assoc, decodeListAux]
    rw [hrt a (as.flatMap enc ++ t)]
    simp [ih]

theorem decodeList_encodeList (dec : Bytes → Option (α × Bytes)) (enc : α → Bytes)
    (hrt : ∀ a t, dec (enc a ++ t) = some (a, t)) (l : List α) (t : Bytes) :
    decodeList dec (encodeList enc l ++ t) = some (l, t) := by
  simp [encodeList, decodeList]
  exact decodeListAux_flatMap dec enc hrt l t

/-- Chart metadata, restricted to the fields the claims mention
(chart.Metadata.Name and chart.Metadata.Version). -/
structure Metadata where
  name : String
  version : String
deriving DecidableEq, Repr

/-- A chart: its metadata plus an opaque remainder (templates, files)
standing for the rest of the chart tree. -/
structure Chart where
  metadata : Metadata
  body : Bytes
deriving DecidableEq, Repr

/-- OCI content descriptor (ocispec.Descriptor): media type, digest (lowercase
hex string in the sources), size and the annotation map. -/
structure Descriptor where
  mediaType : String
  digest : String
  size : Nat
  annots : List (String × String)
deriving DecidableEq, Repr

/-- OCI image manifest (ocispec.Manifest): schema version, config descriptor
and layer descriptors. -/
structure Manifest where
  schemaVersion : Nat
  config : Descriptor
  layers : List Descriptor
deriving DecidableEq, Repr

/-- HelmChartConfigMediaType (constants file of the registry package; value per
the spec section 4.D). -/
def HelmChartConfigMediaType : String := "application/vnd.cncf.helm.config.v1+json"

/-- HelmChartContentLayerMediaType (constants file of the registry package; value
per the spec section 4.D). -/
def HelmChartContentLayerMediaType : String := "application/vnd.cncf.helm.chart.content.v1.tar+gzip"

/-- ocispec.MediaTypeImageManifest. -/
def MediaTypeImageManifest : String := "application/vnd.oci.image.manifest.v1+json"

/-- ocispec.AnnotationRefName, the key under which an index entry carries its ref. -/
def AnnotRefName : String := "org.opencontainers.image.ref.name"

/-- Go map read with zero-value default: the ref annotation of a descriptor, or
the empty string when the key is absent (Annotations nil or key missing). -/
def getRefAnnot (d : Descriptor) : String :=
  match d.annots.lookup AnnotRefName with
  | some v => v
  | none => ""

/-- Go map write m[k] = v on an association list. -/
def mapInsert (l : List (String × β)) (k : String) (v : β) : List (String × β) :=
  match l with
  | [] => [(k, v)]
  | (k2, v2) :: t => if k2 = k then (k, v) :: t else (k2, v2) :: mapInsert t k v

/-- Association-list lookup (Go map read). -/
def alookup (l : List (String × β)) (k : String) : Option β :=
  match l with
  | [] => none
  | (k2, v) :: t => if k2 = k then some v else alookup t k

/-- json.Marshal of chart.Metadata (deterministic, injective). -/
def encodeMetadata (m : Metadata) : Bytes :=
  encodeStr m.name ++ encodeStr m.version

/-- Decoder matching encodeMetadata. -/
def decodeMetadata (bs : Bytes) : Option (Metadata × Bytes) := do
  let (n, r1) ← decodeStr bs
  let (v, r2) ← decodeStr r1
  some ({ name := n, version := v }, r2)

theorem decodeMetadata_encodeMetadata (m : Metadata) (t : Bytes) :
    decodeMetadata (encodeMetadata m ++ t) = some (m, t) := by
  simp [encodeMetadata, decodeMetadata, decodeStr_encodeStr]

/-- Encoding of a string pair (annotation entry) inside a JSON document. -/
def encodePair (p : String × String) : Bytes :=
  encodeStr p.1 ++ encodeStr p.2

/-- Decoder matching encodePair. -/
def decodePair (bs : Bytes) : Option ((String × String) × Bytes) := do
  let (k, r1) ← decodeStr bs
  let (v, r2) ← decodeStr r1
  some ((k, v), r2)

theorem decodePair_encodePair (p : String × String) (t : Bytes) :
    decodePair (encodePair p ++ t) = some (p, t) := by
  simp [encodePair, decodePair, decodeStr_encodeStr]

/-- json.Marshal of an ocispec.Descriptor. -/
def encodeDescriptor (d : Descriptor) : Bytes :=
  encodeStr d.mediaType ++ encodeStr d.digest ++ d.size :: encodeList encodePair d.annots

/-- Decoder matching encodeDescriptor. -/
def decodeDescriptor (bs : Bytes) : Option (Descriptor × Bytes) := do
  let (mt, r1) ← decodeStr bs
  let (dg, r2) ← decodeStr r1
  match r2 with
  | [] => none
  | sz :: r3 => do
    let (as, r4) ← decodeList decodePair r3
    some ({ mediaType := mt, digest := dg, size := sz, annots := as }, r4)

theorem decodeDescriptor_encodeDescriptor (d : Descriptor) (t : Bytes) :
    decodeDescriptor (encodeDescriptor d ++ t) = some (d, t) := by
  simp [encodeDescriptor, decodeDescriptor, decodeStr_encodeStr,
    decodeList_encodeList decodePair encodePair decodePair_encodePair]

/-- json.Marshal of an ocispec.Manifest. -/
def encodeManifest (m : Manifest) : Bytes :=
  m.schemaVersion :: encodeDescriptor m.config ++ encodeList encodeDescriptor m.layers

/-- Structural decoder matching encodeManifest. -/
def decodeManifestAux (bs : Bytes) : Option (Manifest × Bytes) :=
  match bs with
  | [] => none
  | sv :: r1 => do
    let (cfg, r2) ← decodeDescriptor r1
    let (ls, r3) ← decodeList decodeDescriptor r2
    some ({ schemaVersion := sv, config := cfg, layers := ls }, r3)

/-- json.Unmarshal of a manifest blob: the whole byte sequence must parse. -/
def decodeManifest (bs : Bytes) : Option Manifest :=
  match decodeManifestAux bs with
  | some (m, []) => some m
  | _ => none

theorem decodeManifestAux_encodeManifest (m : Manifest) (t : Bytes) :
    decodeManifestAux (encodeManifest m ++ t) = some (m, t) := by
  simp [encodeManifest, decodeManifestAux, decodeDescriptor_encodeDescriptor,
    decodeList_encodeList decodeDescriptor encodeDescriptor decodeDescriptor_encodeDescriptor]

theorem decodeManifest_encodeManifest (m : Manifest) :
    decodeManifest (encodeManifest m) = some m := by
  have h := decodeManifestAux_encodeManifest m []
  simp at h
  simp [decodeManifest, h]

/-- Modelled from the spec: ChartArchiver.Pack, realized in the repository by
chartutil.Save followed by reading the tarball back (pkg/chartutil is not under
src).  The compressed tar is modelled as an injective encoding of the chart;
round-trip identity at the chart.Metadata level is the contract of section 6.1. -/
def chartArchive (c : Chart) : Bytes :=
  encodeMetadata c.metadata ++ c.body.length :: c.body

/-- Modelled from the spec: ChartArchiver.Unpack, realized in the repository by
loader.LoadArchive (pkg/chart/loader is not under src).  Inverse of chartArchive. -/
def loadArchive (bs : Bytes) : Option Chart := do
  let (m, r1) ← decodeMetadata bs
  match r1 with
  | [] => none
  | n :: body =>
    if n = body.length then some { metadata := m, body := body } else none

theorem loadArchive_chartArchive (c : Chart) :
    loadArchive (chartArchive c) = some c := by
  simp [chartArchive, loadArchive, decodeMetadata_encodeMetadata]

theorem chartArchive_ne_nil (c : Chart) : chartArchive c ≠ [] := by
  simp [chartArchive, encodeMetadata, encodeStr]

/-- Result type for Go functions: goError models a returned error value,
goPanic models a runtime panic (for example a nil-pointer dereference). -/
inductive GoErr where
  | goError (msg : String)
  | goPanic (msg : String)
deriving DecidableEq, Repr

/-- The Go runtime message for dereferencing a nil pointer. -/
def nilDerefMsg : String := "runtime error: invalid memory address or nil pointer dereference"

/-- State of the experimental cache (cache.go Cache): the oras OCIStore holds
the named references of index.json (a map keyed by the ref-name annotation,
modelled as a list with at most one entry per ref maintained by upsert) and the
containerd content store on disk under blobs/sha256 keyed by digest hex; the
memory store of the cache; and the bytes last written to index.json by
SaveIndex. -/
structure CacheState where
  refs : List Descriptor
  blobs : List (String × Bytes)
  memBlobs : List (String × Bytes)
  fsIndexJson : Option Bytes
deriving DecidableEq, Repr

/-- Content-address invariant of the blob store: every file under blobs/sha256
is named by the digest of its own bytes (spec section 3, invariant 2). -/
def BlobsContentAddressed (hash : Bytes → String) (blobs : List (String × Bytes)) : Prop :=
  ∀ p ∈ blobs, p.1 = hash p.2

instance (hash : Bytes → String) (blobs : List (String × Bytes)) :
    Decidable (BlobsContentAddressed hash blobs) :=
  inferInstanceAs (Decidable (∀ p ∈ blobs, p.1 = hash p.2))

/-- cache.go storeBlob: write the bytes through a containerd content-store
writer referenced by the digest hex and commit.  The external containerd local
store (vendored dependency, not part of this repository) commits the file at
blobs/sha256/digest iff that digest is not already present, and reports
errdefs.AlreadyExists otherwise, leaving the existing file untouched; on
AlreadyExists the function sets exists and returns nil error. -/
def storeBlob (hash : Bytes → String) (st : CacheState) (blobBytes : Bytes) :
    Bool × CacheState :=
  match alookup st.blobs (hash blobBytes) with
  | some _ => (true, st)
  | none => (false, { st with blobs := st.blobs ++ [(hash blobBytes, blobBytes)] })

/-- cache.go fetchBlob: open a ReaderAt for the descriptor in the OCI store and
read desc.Size bytes from offset 0.  Missing blob fails; a file shorter than
desc.Size fails with EOF; a longer file is read truncated to desc.Size. -/
def fetchBlob (st : CacheState) (desc : Descriptor) : Except GoErr Bytes :=
  match alookup st.blobs desc.digest with
  | none => .error (.goError "content not found")
  | some b =>
    if b.length < desc.size then .error (.goError "EOF")
    else .ok (b.take desc.size)

/-- oras Memorystore.Add with name "": returns a descriptor with the media
type, the digest of the bytes and their length, and records the bytes in the
memory store (external oras dependency). -/
def memoryStoreAdd (hash : Bytes → String) (st : CacheState) (mediaType : String)
    (bs : Bytes) : Descriptor × CacheState :=
  ({ mediaType := mediaType, digest := hash bs, size := bs.length, annots := [] },
   { st with memBlobs := mapInsert st.memBlobs (hash bs) bs })

/-- cache.go saveChartConfig: marshal ch.Metadata, store it as a blob, and
build its descriptor via the memory store. -/
def saveChartConfig (hash : Bytes → String) (st : CacheState) (ch : Chart) :
    Descriptor × Bool × CacheState :=
  let configBytes := encodeMetadata ch.metadata
  let (configExists, st1) := storeBlob hash st configBytes
  let (descriptor, st2) := memoryStoreAdd hash st1 HelmChartConfigMediaType configBytes
  (descriptor, configExists, st2)

/-- cache.go saveChartContentLayer: write the chart tarball (chartutil.Save)
under .build, read it back, store it as a blob and build its descriptor. -/
def saveChartContentLayer (hash : Bytes → String) (st : CacheState) (ch : Chart) :
    Descriptor × Bool × CacheState :=
  let contentBytes := chartArchive ch
  let (contentExists, st1) := storeBlob hash st contentBytes
  let (descriptor, st2) := memoryStoreAdd hash st1 HelmChartContentLayerMediaType contentBytes
  (descriptor, contentExists, st2)

/-- cache.go saveChartManifest: build the manifest with schemaVersion 2, the
config descriptor and the single content layer, marshal and store it, and
return its descriptor (media type image manifest, no annotations). -/
def saveChartManifest (hash : Bytes → String) (st : CacheState)
    (config contentLayer : Descriptor) : Descriptor × Bool × CacheState :=
  let manifest : Manifest :=
    { schemaVersion := 2, config := config, layers := [contentLayer] }
  let manifestBytes := encodeManifest manifest
  let (manifestExists, st1) := storeBlob hash st manifestBytes
  let descriptor : Descriptor :=
    { mediaType := MediaTypeImageManifest, digest := hash manifestBytes,
      size := manifestBytes.length, annots := [] }
  (descriptor, manifestExists, st1)

/-- Upsert into the reference list: replace the first entry carrying the given
ref-name annotation, else append. -/
def upsertRef (refs : List Descriptor) (ref : String) (desc : Descriptor) :
    List Descriptor :=
  match refs with
  | [] => [desc]
  | d :: t => if getRefAnnot d = ref then desc :: t else d :: upsertRef t ref desc

/-- Modelled from the spec: oras OCIStore.AddReference (external oras
dependency, spec section 4.C Upsert): set the ref-name annotation on the
descriptor and store it under the ref in the reference map, replacing any
existing entry for the same ref and never duplicating a ref. -/
def addReference (st : CacheState) (ref : String) (desc : Descriptor) : CacheState :=
  let named := { desc with annots := mapInsert desc.annots AnnotRefName ref }
  { st with refs := upsertRef st.refs ref named }

/-- Serialization of the reference list as the index.json document written by
SaveIndex. -/
def encodeRefIndex (refs : List Descriptor) : Bytes :=
  2 :: encodeList encodeDescriptor refs

/-- Modelled from the spec: oras OCIStore.SaveIndex (external oras dependency,
spec section 4.C Save): write the current references as index.json. -/
def saveIndex (st : CacheState) : CacheState :=
  { st with fsIndexJson := some (encodeRefIndex st.refs) }

/-- cache.go StoreChartAtRef: save the config blob, the content layer blob and
the manifest blob, add the ref to the OCI store and save the index; returns the
content-layer descriptor and whether the manifest blob already existed. -/
def storeChartAtRef (hash : Bytes → String) (st : CacheState) (ch : Chart)
    (ref : String) : Descriptor × Bool × CacheState :=
  let (config, _, st1) := saveChartConfig hash st ch
  let (contentLayer, _, st2) := saveChartContentLayer hash st1 ch
  let (manifest, manifestExists, st3) := saveChartManifest hash st2 config contentLayer
  let st4 := addReference st3 ref manifest
  let st5 := saveIndex st4
  (contentLayer, manifestExists, st5)

/-- cache.go manifestDescriptorToChart: fetch the manifest blob, unmarshal it,
require exactly one layer, pick the layer whose media type is the Helm content
layer media type into a pointer (nil when no layer matches, in which case
reading its Size dereferences nil and panics), require nonzero size, fetch the
content blob and load the chart archive. -/
def manifestDescriptorToChart (st : CacheState) (desc : Descriptor) :
    Except GoErr Chart := do
  let manifestBytes ← fetchBlob st desc
  match decodeManifest manifestBytes with
  | none => .error (.goError "json unmarshal failed")
  | some manifest =>
    let numLayers := manifest.layers.length
    if numLayers ≠ 1 then
      .error (.goError "manifest does not contain exactly 1 layer")
    else
      let contentLayer : Option Descriptor :=
        manifest.layers.foldl
          (fun acc layer =>
            if layer.mediaType = HelmChartContentLayerMediaType then some layer else acc)
          none
      match contentLayer with
      | none => .error (.goPanic nilDerefMsg)
      | some cl =>
        if cl.size = 0 then
          .error (.goError "manifest does not contain a layer with the chart content mediatype")
        else do
          let contentBytes ← fetchBlob st cl
          match loadArchive contentBytes with
          | none => .error (.goError "load archive failed")
          | some ch => .ok ch

/-- Scan of ListReferences for the first descriptor annotated with the ref. -/
def findRef (refs : List Descriptor) (ref : String) : Option Descriptor :=
  match refs with
  | [] => none
  | d :: t => if getRefAnnot d = ref then some d else findRef t ref

/-- cache.go FetchChartByRef: scan the OCI store references for the ref
annotation and convert the matching manifest descriptor to a chart; absent ref
returns no chart and exists false without error. -/
def fetchChartByRef (st : CacheState) (ref : String) :
    Except GoErr (Option Chart × Bool) :=
  match findRef st.refs ref with
  | none => .ok (none, false)
  | some m =>
    match manifestDescriptorToChart st m with
    | .error e => .error e
    | .ok c => .ok (some c, true)

/-- Modelled from the spec: oras OCIStore.DeleteReference (external oras
dependency, spec section 4.C Delete): remove the entry stored under the ref
from the reference map; blobs are untouched. -/
def deleteReference (st : CacheState) (ref : String) : CacheState :=
  { st with refs := st.refs.filter (fun d => getRefAnnot d ≠ ref) }

/-- cache.go RemoveChartByRef: fetch the chart by ref; on error or absence
return as is, otherwise delete the reference and save the index. -/
def removeChartByRef (st : CacheState) (ref : String) :
    Except GoErr (Bool × CacheState) :=
  match fetchChartByRef st ref with
  | .error e => .error e
  | .ok (_, false) => .ok (false, st)
  | .ok (_, true) => .ok (true, saveIndex (deleteReference st ref))

/-- Insertion into an ascending list of strings. -/
def insertSorted (s : String) : List String → List String
  | [] => [s]
  | t :: ts => if s ≤ t then s :: t :: ts else t :: insertSorted s ts

/-- sort.Strings: ascending lexicographic sort. -/
def sortStrings : List String → List String
  | [] => []
  | s :: ss => insertSorted s (sortStrings ss)

/-- cache.go ListAllCharts: iterate the references; read the ref annotation
with zero-value default; the source skips every entry whose annotation is
not empty (if ref not equal to empty string then continue) and resolves the
remaining entries into a map keyed by the annotation; finally the keys are
sorted ascending and the charts returned in that order. -/
def listAllCharts (st : CacheState) : Except GoErr (List Chart) := do
  let chartMap ← st.refs.foldlM
    (fun (acc : List (String × Chart)) manifest => do
      let ref := getRefAnnot manifest
      if ref ≠ "" then
        pure acc
      else do
        match manifestDescriptorToChart st manifest with
        | .error e => .error e
        | .ok ch => pure (mapInsert acc ref ch))
    []
  let refs := sortStrings (chartMap.map Prod.fst)
  pure (refs.filterMap (fun r => alookup chartMap r))

/-- Modelled from the spec: the Reference value type (reference.go of the
registry package is not under src; spec section 3): repo and tag, canonical
form repo colon tag. -/
structure Reference where
  repo : String
  tag : String
deriving DecidableEq, Repr

/-- Reference.FullName: the canonical repo colon tag form. -/
def Reference.fullName (r : Reference) : String :=
  r.repo ++ ":" ++ r.tag

/-- Summary of a cached ref as assembled by cache FetchReference (the fields
the claims depend on). -/
structure CacheRefSummary where
  name : String
  repo : String
  tag : String
  refExists : Bool
  chart : Option Chart
deriving DecidableEq, Repr

/-- containerd store Info on a digest (external dependency): size of the blob
with that digest, or a not-found error. -/
def storeInfoSize (st : CacheState) (digest : String) : Except GoErr Nat :=
  match alookup st.blobs digest with
  | none => .error (.goError "content not found")
  | some b => .ok b.length

/-- cache.go FetchReference: walk all references; for each entry annotated with
the full name, mark it existing and resolve manifest, layers, info, content and
chart, mutating the summary; any failure aborts with the error.  The layer
selection uses the same nil-pointer scheme as manifestDescriptorToChart. -/
def fetchReference (st : CacheState) (ref : Reference) :
    Except GoErr CacheRefSummary :=
  st.refs.foldlM
    (fun (r : CacheRefSummary) desc =>
      if getRefAnnot desc = r.name then do
        let r := { r with refExists := true }
        let manifestBytes ← fetchBlob st desc
        match decodeManifest manifestBytes with
        | none => .error (.goError "json unmarshal failed")
        | some manifest =>
          if manifest.layers.length ≠ 1 then
            .error (.goError "manifest does not contain exactly 1 layer")
          else
            let contentLayer : Option Descriptor :=
              manifest.layers.foldl
                (fun acc layer =>
                  if layer.mediaType = HelmChartContentLayerMediaType then some layer else acc)
                none
            match contentLayer with
            | none => .error (.goPanic nilDerefMsg)
            | some cl =>
              if cl.size = 0 then
                .error (.goError "manifest does not contain a layer with the chart content mediatype")
              else do
                let _ ← storeInfoSize st cl.digest
                let contentBytes ← fetchBlob st cl
                match loadArchive contentBytes with
                | none => .error (.goError "load archive failed")
                | some ch => .ok { r with chart := some ch }
      else
        .ok r)
    { name := ref.fullName, repo := ref.repo, tag := ref.tag,
      refExists := false, chart := none }

/-- client.go (internal experimental registry) PullChart: refuse an empty tag
up front, then look up the existing ref, pull manifest and blobs from the
remote into the OCI store, add the reference, save the index and fetch the ref
back.  The remote transport (oras.Pull against the resolver) is abstracted as
an oracle from the full ref name to either an error or the manifest descriptor
plus the blobs it ingests; the returned list of strings records which refs the
remote was contacted for. -/
def pullChart (remote : String → Except GoErr (Descriptor × List (String × Bytes)))
    (st : CacheState) (ref : Reference) :
    Except GoErr Unit × CacheState × List String :=
  if ref.tag = "" then
    (.error (.goError "tag explicitly required"), st, [])
  else
    match fetchReference st ref with
    | .error e => (.error e, st, [])
    | .ok existing =>
      match remote ref.fullName with
      | .error e => (.error e, st, [ref.fullName])
      | .ok (manifest, ingested) =>
        let st1 := { st with
          blobs := ingested.foldl (fun bs p => mapInsert bs p.1 p.2) st.blobs }
        let st2 := addReference st1 ref.fullName manifest
        let st3 := saveIndex st2
        match fetchReference st3 ref with
        | .error e => (.error e, st3, [ref.fullName])
        | .ok r =>
          if !r.refExists then
            (.error (.goError "chart not found"), st3, [ref.fullName])
          else if !existing.refExists then
            (.ok (), st3, [ref.fullName])
          else
            (.ok (), st3, [ref.fullName])

/-- File-system operations performed by the pkg registry index code.  Directory
creation (MkdirAll) and stat calls are not recorded. -/
inductive FsOp where
  | writeFile (path : String) (contents : Bytes)
  | renameFile (src dst : String)
  | removeFile (path : String)
  | readFile (path : String)
deriving DecidableEq, Repr

/-- Whether an operation is a rename. -/
def FsOp.isRename : FsOp → Bool
  | .renameFile _ _ => true
  | _ => false

/-- Whether an operation writes the given path. -/
def FsOp.writesTo (op : FsOp) (p : String) : Bool :=
  match op with
  | .writeFile path _ => path = p
  | _ => false

/-- On-disk state under the index root dir: the oci-layout marker, index.json
and the blob files under blobs/sha256 keyed by digest hex. -/
structure IdxFS where
  layout : Option Bytes
  indexJson : Option Bytes
  blobs : List (String × Bytes)
deriving DecidableEq, Repr

/-- filepath.Join of two components. -/
def joinPath (a b : String) : String := a ++ "/" ++ b

/-- pkg/registry/index.go OCIIndex: the wrapped ocispec.Index (schema version
and manifests) plus the root dir (excluded from serialization by the json
dash tag). -/
structure OCIIndex where
  schemaVersion : Nat
  manifests : List Descriptor
  rootDir : String
deriving DecidableEq, Repr

/-- index.go getBlobPath: blobs/sha256/digest under the root dir; empty root
dir is an error. -/
def OCIIndex.getBlobPath (idx : OCIIndex) (digest : String) : Except GoErr String :=
  if idx.rootDir = "" then
    .error (.goError "could not determine blob path due to missing index root dir")
  else
    .ok (joinPath (joinPath (joinPath idx.rootDir "blobs") "sha256") digest)

/-- index.go getBlobDigest: sha256 hex of the blob (hash parameter). -/
def OCIIndex.getBlobDigest (hash : Bytes → String) (blob : Bytes) : String :=
  hash blob

/-- index.go StoreBlob: refuse an empty root dir, compute the digest, make the
parent directory and write the blob file at blobs/sha256/digest, returning the
digest.  The write is unconditional (ioutil.WriteFile). -/
def OCIIndex.storeBlob (hash : Bytes → String) (idx : OCIIndex) (fs : IdxFS)
    (blob : Bytes) : Except GoErr (String × IdxFS × List FsOp) :=
  if idx.rootDir = "" then
    .error (.goError "could not store content due to missing index root dir")
  else do
    let digest := OCIIndex.getBlobDigest hash blob
    let path ← idx.getBlobPath digest
    .ok (digest, { fs with blobs := mapInsert fs.blobs digest blob },
      [.writeFile path blob])

/-- index.go FetchBlob: resolve the blob path and read the whole file. -/
def OCIIndex.fetchBlob (idx : OCIIndex) (fs : IdxFS) (digest : String) :
    Except GoErr (Bytes × List FsOp) := do
  let path ← idx.getBlobPath digest
  match alookup fs.blobs digest with
  | none => .error (.goError "no such file or directory")
  | some b => .ok (b, [.readFile path])

/-- index.go DeleteBlob: its body is identical to FetchBlob: it resolves the
blob path and reads the whole file, returning its bytes; no file is removed.
The file-system state is returned to make this observable. -/
def OCIIndex.deleteBlob (idx : OCIIndex) (fs : IdxFS) (digest : String) :
    Except GoErr (Bytes × IdxFS × List FsOp) := do
  let path ← idx.getBlobPath digest
  match alookup fs.blobs digest with
  | none => .error (.goError "no such file or directory")
  | some b => .ok (b, fs, [.readFile path])

/-- The manifest descriptor built by index.go AddManifest for a config, layers
and ref: media type image manifest, digest and size of the marshalled manifest
with schemaVersion 2, and the ref-name annotation. -/
def mkManifestDescriptor (hash : Bytes → String) (config : Descriptor)
    (layers : List Descriptor) (ref : String) : Descriptor :=
  let manifestRaw := encodeManifest { schemaVersion := 2, config := config, layers := layers }
  { mediaType := MediaTypeImageManifest, digest := hash manifestRaw,
    size := manifestRaw.length, annots := [(AnnotRefName, ref)] }

/-- index.go AddManifest: marshal the manifest, build its descriptor annotated
with the ref, and append it to index.Manifests; returns the manifest bytes and
the digest hex. -/
def OCIIndex.addManifest (hash : Bytes → String) (idx : OCIIndex)
    (config : Descriptor) (layers : List Descriptor) (ref : String) :
    OCIIndex × Bytes × String :=
  let manifestRaw := encodeManifest { schemaVersion := 2, config := config, layers := layers }
  let manifestDescriptor := mkManifestDescriptor hash config layers ref
  ({ idx with manifests := idx.manifests ++ [manifestDescriptor] },
   manifestRaw, manifestDescriptor.digest)

/-- ocispec.ImageLayoutFile. -/
def imageLayoutFile : String := "oci-layout"

/-- json.Marshal of the ocispec.ImageLayout marker with version 1.0.0. -/
def layoutBytes : Bytes := encodeStr "1.0.0"

/-- index.go ensureOCILayoutFile: stat the oci-layout file; write the marker
only when the file does not exist. -/
def OCIIndex.ensureOCILayoutFile (idx : OCIIndex) (fs : IdxFS) :
    IdxFS × List FsOp :=
  match fs.layout with
  | none => ({ fs with layout := some layoutBytes },
      [.writeFile (joinPath idx.rootDir imageLayoutFile) layoutBytes])
  | some _ => (fs, [])

/-- json.Marshal of an index file with the given schema version and manifests
(the shape written by both index.go Save and client.go updateIndexJson). -/
def encodeIdxFile (sv : Nat) (manifests : List Descriptor) : Bytes :=
  sv :: encodeList encodeDescriptor manifests

/-- json.Unmarshal of an index file. -/
def decodeIdxFile (bs : Bytes) : Option (Nat × List Descriptor) :=
  match bs with
  | [] => none
  | sv :: rest =>
    match decodeList decodeDescriptor rest with
    | some (ms, []) => some (sv, ms)
    | _ => none

theorem decodeIdxFile_encodeIdxFile (sv : Nat) (ms : List Descriptor) :
    decodeIdxFile (encodeIdxFile sv ms) = some (sv, ms) := by
  have h := decodeList_encodeList decodeDescriptor encodeDescriptor
    decodeDescriptor_encodeDescriptor ms []
  simp at h
  simp [encodeIdxFile, decodeIdxFile, h]

/-- index.go Save: refuse an empty root dir, ensure the oci-layout marker,
marshal the index (root dir excluded) and write it to index.json with a single
direct ioutil.WriteFile. -/
def OCIIndex.save (idx : OCIIndex) (fs : IdxFS) :
    Except GoErr (IdxFS × List FsOp) :=
  if idx.rootDir = "" then
    .error (.goError "could not save due to missing index root dir")
  else
    let (fs1, ops1) := idx.ensureOCILayoutFile fs
    let indexRaw := encodeIdxFile idx.schemaVersion idx.manifests
    .ok ({ fs1 with indexJson := some indexRaw },
      ops1 ++ [.writeFile (joinPath idx.rootDir "index.json") indexRaw])

/-- pkg/registry/client.go updateIndexJson: create index.json with a
zero-valued ocispec.Index if absent, read and unmarshal it, append the manifest
descriptor, and rewrite index.json with schemaVersion 2 and the extended
manifests, again with direct ioutil.WriteFile calls. -/
def updateIndexJson (fs : IdxFS) (cacheRootDir : String) (manifest : Descriptor) :
    Except GoErr (IdxFS × List FsOp) :=
  let path := joinPath cacheRootDir "index.json"
  let emptyRaw := encodeIdxFile 0 []
  let created := fs.indexJson.isNone
  let fs0 : IdxFS := if created then { fs with indexJson := some emptyRaw } else fs
  let ops0 : List FsOp := if created then [.writeFile path emptyRaw] else []
  let raw := match fs0.indexJson with
    | some r => r
    | none => []
  match decodeIdxFile raw with
  | none => .error (.goError "json unmarshal failed")
  | some (_, ms) =>
    let newRaw := encodeIdxFile 2 (ms ++ [manifest])
    .ok ({ fs0 with indexJson := some newRaw },
      ops0 ++ [.readFile path, .writeFile path newRaw])

/-- index.go DeleteManifestByRef: iterate index.Manifests keeping a result
pointer that starts nil; each iteration reads the annotations of that result
pointer (not of the loop variable), so the first iteration dereferences nil.
When the read succeeds the matching entry is saved and marked deleted, others
are appended to the new manifest list, which finally replaces index.Manifests. -/
def OCIIndex.deleteManifestByRef (idx : OCIIndex) (ref : String) :
    Except GoErr (Option Descriptor × Bool × OCIIndex) := do
  let (newManifests, manifest, deleted) ←
    idx.manifests.foldlM
      (fun (acc : List Descriptor × Option Descriptor × Bool) m => do
        let (nm, mf, del) := acc
        match mf with
        | none => .error (.goPanic nilDerefMsg)
        | some cur =>
          match alookup cur.annots AnnotRefName with
          | some r =>
            if r = ref then
              pure (nm, some m, true)
            else
              pure (nm ++ [m], mf, del)
          | none => pure (nm, mf, del))
      ([], none, false)
  pure (manifest, deleted, { idx with manifests := newManifests })

instance {ε α : Type} [DecidableEq ε] [DecidableEq α] : DecidableEq (Except ε α) :=
  fun a b =>
    match a, b with
    | .ok x, .ok y =>
      if h : x = y then .isTrue (by rw [h]) else .isFalse (by simp [h])
    | .error x, .error y =>
      if h : x = y then .isTrue (by rw [h]) else .isFalse (by simp [h])
    | .ok _, .error _ => .isFalse (by simp)
    | .error _, .ok _ => .isFalse (by simp)

/-- A concrete digest function for evaluating the model on literal inputs:
each byte becomes a character.  It is injective on byte sequences whose
entries are valid code points, which covers all blobs appearing in the
concrete scenarios below. -/
def charHash (bs : Bytes) : String :=
  String.mk (bs.map Char.ofNat)

/-- Unary character encoding used by the injective digest function hashB. -/
def unaryEnc : Bytes → List Char
  | [] => []
  | n :: t => List.replicate n 'a' ++ 'b' :: unaryEnc t

/-- An injective digest function, standing in for SHA-256 in witnesses that
need collision-freeness. -/
def hashB (bs : Bytes) : String :=
  String.mk (unaryEnc bs)

theorem unaryEnc_block_inj (n : Nat) :
    ∀ (m : Nat) (u v : List Char),
      List.replicate n 'a' ++ 'b' :: u = List.replicate m 'a' ++ 'b' :: v →
      n = m ∧ u = v := by
  induction n with
  | zero =>
    intro m u v h
    cases m with
    | zero => simpa using h
    | succ m =>
      simp [List.replicate_succ] at h
  | succ n ih =>
    intro m u v h
    cases m with
    | zero =>
      simp [List.replicate_succ] at h
    | succ m =>
      simp only [List.replicate_succ, List.cons_append, List.cons.injEq] at h
      obtain ⟨heq, hrest⟩ := ih m u v h.2
      exact ⟨by rw [heq], hrest⟩

theorem unaryEnc_inj : Function.Injective unaryEnc := by
  intro a
  induction a with
  | nil =>
    intro b h
    cases b with
    | nil => rfl
    | cons n t =>
      exfalso
      simp [unaryEnc] at h
  | cons n t ih =>
    intro b h
    cases b with
    | nil =>
      exfalso
      simp [unaryEnc] at h
    | cons m u =>
      simp only [unaryEnc] at h
      obtain ⟨heq, hrest⟩ := unaryEnc_block_inj n m (unaryEnc t) (unaryEnc u) h
      rw [heq, ih hrest]

theorem hashB_inj : Function.Injective hashB := by
  intro a b h
  simp only [hashB] at h
  injection h with h
  exact unaryEnc_inj h

theorem alookup_mem {l : List (String × β)} {k : String} {v : β}
    (h : alookup l k = some v) : (k, v) ∈ l := by
  induction l with
  | nil => simp [alookup] at h
  | cons p t ih =>
    obtain ⟨k2, v2⟩ := p
    by_cases hk : k2 = k
    · simp [alookup, hk] at h
      simp [hk, h]
    · simp [alookup, hk] at h
      exact List.mem_cons_of_mem _ (ih h)

theorem alookup_append_left {l1 l2 : List (String × β)} {k : String} {v : β}
    (h : alookup l1 k = some v) : alookup (l1 ++ l2) k = some v := by
  induction l1 with
  | nil => simp [alookup] at h
  | cons p t ih =>
    obtain ⟨k2, v2⟩ := p
    by_cases hk : k2 = k <;> simp [alookup, hk] at h ⊢ <;> simp_all

theorem alookup_append_none {l1 l2 : List (String × β)} {k : String}
    (h : alookup l1 k = none) : alookup (l1 ++ l2) k = alookup l2 k := by
  induction l1 with
  | nil => simp [alookup]
  | cons p t ih =>
    obtain ⟨k2, v2⟩ := p
    by_cases hk : k2 = k
    · simp [alookup, hk] at h
    · simp [alookup, hk] at h ⊢
      simp_all

theorem mapInsert_of_lookup_self {l : List (String × β)} {k : String} {v : β}
    (h : alookup l k = some v) : mapInsert l k v = l := by
  induction l with
  | nil => simp [alookup] at h
  | cons p t ih =>
    obtain ⟨k2, v2⟩ := p
    by_cases hk : k2 = k
    · simp [alookup, hk] at h
      simp [mapInsert, hk, h]
    · simp [alookup, hk] at h
      simp [mapInsert, hk, ih h]

/-- The blobs component written by storeBlob. -/
def storeBlobL (hash : Bytes → String) (blobs : List (String × Bytes)) (b : Bytes) :
    List (String × Bytes) :=
  match alookup blobs (hash b) with
  | some _ => blobs
  | none => blobs ++ [(hash b, b)]

theorem storeBlob_eq (hash : Bytes → String) (st : CacheState) (b : Bytes) :
    storeBlob hash st b =
      ((alookup st.blobs (hash b)).isSome, { st with blobs := storeBlobL hash st.blobs b }) := by
  cases h : alookup st.blobs (hash b) <;> simp [storeBlob, storeBlobL, h]

theorem storeBlobL_ca {hash : Bytes → String} {blobs : List (String × Bytes)}
    (hca : BlobsContentAddressed hash blobs) (b : Bytes) :
    BlobsContentAddressed hash (storeBlobL hash blobs b) := by
  cases h : alookup blobs (hash b) with
  | some v => simpa [storeBlobL, h] using hca
  | none =>
    simp only [storeBlobL, h]
    intro p hp
    rcases List.mem_append.mp hp with hmem | hmem
    · exact hca p hmem
    · simp at hmem
      simp [hmem]

theorem ca_alookup {hash : Bytes → String} {blobs : List (String × Bytes)}
    (hinj : Function.Injective hash) (hca : BlobsContentAddressed hash blobs)
    {b c : Bytes} (h : alookup blobs (hash b) = some c) : c = b := by
  have hmem := alookup_mem h
  have := hca _ hmem
  exact (hinj this.symm)

theorem storeBlobL_lookup_self {hash : Bytes → String} {blobs : List (String × Bytes)}
    (hinj : Function.Injective hash) (hca : BlobsContentAddressed hash blobs) (b : Bytes) :
    alookup (storeBlobL hash blobs b) (hash b) = some b := by
  cases h : alookup blobs (hash b) with
  | some c =>
    have := ca_alookup hinj hca h
    simp [storeBlobL, h, this]
  | none =>
    simp only [storeBlobL, h]
    rw [alookup_append_none h]
    simp [alookup]

theorem storeBlobL_lookup_mono {hash : Bytes → String} {blobs : List (String × Bytes)}
    {k : String} {v : Bytes} (h : alookup blobs k = some v) (b : Bytes) :
    alookup (storeBlobL hash blobs b) k = some v := by
  cases hb : alookup blobs (hash b) with
  | some c => simp [storeBlobL, hb, h]
  | none =>
    simp only [storeBlobL, hb]
    exact alookup_append_left h

theorem getRefAnnot_single (ref : String) (mt dg : String) (sz : Nat) :
    getRefAnnot { mediaType := mt, digest := dg, size := sz,
                  annots := [(AnnotRefName, ref)] } = ref := by
  simp [getRefAnnot, List.lookup]

theorem findRef_upsertRef (refs : List Descriptor) (ref : String) (d : Descriptor)
    (hd : getRefAnnot d = ref) : findRef (upsertRef refs ref d) ref = some d := by
  induction refs with
  | nil => simp [upsertRef, findRef, hd]
  | cons a t ih =>
    by_cases h : getRefAnnot a = ref <;> simp [upsertRef, findRef, h, hd, ih]

/-- The marshalled chart.Metadata config blob of a chart. -/
def cfgBytes (ch : Chart) : Bytes := encodeMetadata ch.metadata

/-- The tarball content blob of a chart. -/
def contentBytes (ch : Chart) : Bytes := chartArchive ch

/-- The config descriptor built by saveChartConfig. -/
def configDescOf (hash : Bytes → String) (ch : Chart) : Descriptor :=
  { mediaType := HelmChartConfigMediaType, digest := hash (cfgBytes ch),
    size := (cfgBytes ch).length, annots := [] }

/-- The content-layer descriptor built by saveChartContentLayer. -/
def contentDescOf (hash : Bytes → String) (ch : Chart) : Descriptor :=
  { mediaType := HelmChartContentLayerMediaType, digest := hash (contentBytes ch),
    size := (contentBytes ch).length, annots := [] }

/-- The manifest built by saveChartManifest. -/
def chartManifestOf (hash : Bytes → String) (ch : Chart) : Manifest :=
  { schemaVersion := 2, config := configDescOf hash ch, layers := [contentDescOf hash ch] }

/-- The marshalled manifest blob of a chart. -/
def manifestBytesOf (hash : Bytes → String) (ch : Chart) : Bytes :=
  encodeManifest (chartManifestOf hash ch)

/-- The manifest descriptor built by saveChartManifest. -/
def manifestDescOf (hash : Bytes → String) (ch : Chart) : Descriptor :=
  { mediaType := MediaTypeImageManifest, digest := hash (manifestBytesOf hash ch),
    size := (manifestBytesOf hash ch).length, annots := [] }

/-- The manifest descriptor as stored in the index by AddReference, carrying
the ref-name annotation. -/
def namedManifestDescOf (hash : Bytes → String) (ch : Chart) (ref : String) : Descriptor :=
  { manifestDescOf hash ch with annots := [(AnnotRefName, ref)] }

theorem storeChartAtRef_eq (hash : Bytes → String) (st : CacheState) (ch : Chart)
    (ref : String) :
    storeChartAtRef hash st ch ref =
      (contentDescOf hash ch,
       (alookup (storeBlobL hash (storeBlobL hash st.blobs (cfgBytes ch)) (contentBytes ch))
          (hash (manifestBytesOf hash ch))).isSome,
       { refs := upsertRef st.refs ref (namedManifestDescOf hash ch ref),
         blobs := storeBlobL hash
           (storeBlobL hash (storeBlobL hash st.blobs (cfgBytes ch)) (contentBytes ch))
           (manifestBytesOf hash ch),
         memBlobs := mapInsert
           (mapInsert st.memBlobs (hash (cfgBytes ch)) (cfgBytes ch))
           (hash (contentBytes ch)) (contentBytes ch),
         fsIndexJson := some (encodeRefIndex
           (upsertRef st.refs ref (namedManifestDescOf hash ch ref))) }) := by
  simp [storeChartAtRef, saveChartConfig, saveChartContentLayer, saveChartManifest,
    storeBlob_eq, memoryStoreAdd, addReference, saveIndex, cfgBytes, contentBytes,
    manifestBytesOf, chartManifestOf, configDescOf, contentDescOf, namedManifestDescOf,
    manifestDescOf, mapInsert]

theorem getRefAnnot_namedManifestDescOf (hash : Bytes → String) (ch : Chart)
    (ref : String) : getRefAnnot (namedManifestDescOf hash ch ref) = ref := by
  simp [namedManifestDescOf, manifestDescOf, getRefAnnot, List.lookup]

theorem fetch_after_store (hash : Bytes → String) (hinj : Function.Injective hash)
    (st : CacheState) (hca : BlobsContentAddressed hash st.blobs) (ch : Chart)
    (ref : String) :
    fetchChartByRef (storeChartAtRef hash st ch ref).2.2 ref = .ok (some ch, true) := by
  rw [storeChartAtRef_eq]
  have hca1 := storeBlobL_ca hca (cfgBytes ch)
  have hca2 := storeBlobL_ca hca1 (contentBytes ch)
  have hman := @storeBlobL_lookup_self hash
    (storeBlobL hash (storeBlobL hash st.blobs (cfgBytes ch)) (contentBytes ch))
    hinj hca2 (manifestBytesOf hash ch)
  have hcontent2 := @storeBlobL_lookup_self hash
    (storeBlobL hash st.blobs (cfgBytes ch)) hinj hca1 (contentBytes ch)
  have hcontent3 := @storeBlobL_lookup_mono hash _ _ _ hcontent2 (manifestBytesOf hash ch)
  have hfind := findRef_upsertRef st.refs ref (namedManifestDescOf hash ch ref)
    (getRefAnnot_namedManifestDescOf hash ch ref)
  have hlen : (contentBytes ch).length ≠ 0 := by
    simp [contentBytes, List.length_eq_zero]
    exact chartArchive_ne_nil ch
  simp only [fetchChartByRef, hfind]
  simp only [manifestDescriptorToChart, fetchBlob, namedManifestDescOf, manifestDescOf,
    hman, lt_irrefl, if_false, List.take_length]
  have hdec : decodeManifest (manifestBytesOf hash ch) = some (chartManifestOf hash ch) := by
    rw [manifestBytesOf]
    exact decodeManifest_encodeManifest _
  simp only [contentBytes] at hcontent3
  simp [hdec, chartManifestOf, contentDescOf, fetchBlob, hcontent3, hlen,
    loadArchive_chartArchive, contentBytes, Bind.bind, Except.bind,
    chartArchive_ne_nil ch]

theorem mapInsert_ca {hash : Bytes → String} {l : List (String × Bytes)}
    (hca : BlobsContentAddressed hash l) (b : Bytes) :
    BlobsContentAddressed hash (mapInsert l (hash b) b) := by
  induction l with
  | nil =>
    intro p hp
    simp [mapInsert] at hp
    simp [hp]
  | cons q t ih =>
    obtain ⟨k2, v2⟩ := q
    have hq : (k2, v2).1 = hash (k2, v2).2 := hca _ (List.mem_cons_self _ _)
    have ht : BlobsContentAddressed hash t := fun p hp => hca p (List.mem_cons_of_mem _ hp)
    by_cases hk : k2 = hash b
    · intro p hp
      simp [mapInsert, hk] at hp
      rcases hp with hp | hp
      · simp [hp]
      · exact hca p (List.mem_cons_of_mem _ hp)
    · intro p hp
      simp [mapInsert, hk] at hp
      rcases hp with hp | hp
      · simp [hp] at hq ⊢
        exact hq
      · exact ih ht p hp

/-- The empty cache directory state. -/
def emptyCache : CacheState :=
  { refs := [], blobs := [], memBlobs := [], fsIndexJson := none }

/-- A concrete chart used in the seed scenarios of the spec. -/
def chAlpine : Chart :=
  { metadata := { name := "alpine", version := "0.2.0" }, body := [7, 7] }

/-- The seed-scenario ref. -/
def refAlpine : String := "localhost:5000/alpine:0.2.0"

/-- Cache state after saving the alpine chart under the alpine ref (using the
injective digest hashB). -/
def storedAlpine : CacheState :=
  (storeChartAtRef hashB emptyCache chAlpine refAlpine).2.2

/-- An OCIIndex with no manifests rooted at the directory root. -/
def idxRoot : OCIIndex := { schemaVersion := 2, manifests := [], rootDir := "root" }

/-- An on-disk state holding one blob file d. -/
def fsWithBlob : IdxFS :=
  { layout := none, indexJson := none, blobs := [("d", [1, 2, 3])] }

/-- An empty on-disk state. -/
def fsEmpty : IdxFS := { layout := none, indexJson := none, blobs := [] }

/-- An on-disk state where only the oci-layout marker exists. -/
def fsLayoutOnly : IdxFS :=
  { layout := some layoutBytes, indexJson := none, blobs := [] }

/-- A concrete config descriptor. -/
def cfgDescX : Descriptor :=
  { mediaType := HelmChartConfigMediaType, digest := "c", size := 3, annots := [] }

/-- A concrete content-layer descriptor. -/
def layerDescX : Descriptor :=
  { mediaType := HelmChartContentLayerMediaType, digest := "l", size := 4, annots := [] }

/-- A layer descriptor whose media type is not the Helm content-layer type. -/
def wrongLayerDesc : Descriptor :=
  { mediaType := "application/vnd.oci.image.layer.v1.tar+gzip", digest := "x",
    size := 5, annots := [] }

/-- A manifest whose single layer has the wrong media type. -/
def wrongManifest : Manifest :=
  { schemaVersion := 2, config := cfgDescX, layers := [wrongLayerDesc] }

/-- The marshalled wrong-layer manifest. -/
def wrongManifestBytes : Bytes := encodeManifest wrongManifest

/-- A cache whose blob store holds the wrong-layer manifest under digest m. -/
def cacheWithWrongManifest : CacheState :=
  { refs := [], blobs := [("m", wrongManifestBytes)], memBlobs := [], fsIndexJson := none }

/-- The descriptor pointing at the wrong-layer manifest blob. -/
def wrongManifestDesc : Descriptor :=
  { mediaType := MediaTypeImageManifest, digest := "m",
    size := wrongManifestBytes.length, annots := [] }

/-- The index after adding a manifest for the alpine ref twice through
AddManifest. -/
def idxTwice : OCIIndex :=
  (OCIIndex.addManifest charHash
    (OCIIndex.addManifest charHash idxRoot cfgDescX [layerDescX] refAlpine).1
    cfgDescX [layerDescX] refAlpine).1

/-- Number of index entries whose ref-name annotation equals the ref. -/
def countRefEntries (idx : OCIIndex) (ref : String) : Nat :=
  (idx.manifests.filter (fun d => getRefAnnot d = ref)).length

/-- The operation trace of OCIIndex.save (empty on error). -/
def saveOps (idx : OCIIndex) (fs : IdxFS) : List FsOp :=
  match OCIIndex.save idx fs with
  | .ok (_, ops) => ops
  | .error _ => []

/-- A remote oracle that always fails; used to witness that a call never
reaches the remote. -/
def noRemote : String → Except GoErr (Descriptor × List (String × Bytes)) :=
  fun _ => .error (.goError "remote not contacted")

/-- C1. For every chart c and every reference r, storing c under r in the
cache (StoreChartAtRef) and then fetching r (FetchChartByRef) returns a chart
whose Metadata.Name and Metadata.Version equal those of c, assuming the digest
function is collision-free and the blob store is content-addressed. -/
theorem storeChart_fetchChart_metadata_roundtrip (hash : Bytes → String)
    (hinj : Function.Injective hash) (st : CacheState)
    (hca : BlobsContentAddressed hash st.blobs) (ch : Chart) (ref : String) :
    ∃ fetched : Chart,
      fetchChartByRef (storeChartAtRef hash st ch ref).2.2 ref
        = .ok (some fetched, true) ∧
      fetched.metadata.name = ch.metadata.name ∧
      fetched.metadata.version = ch.metadata.version :=
  ⟨ch, fetch_after_store hash hinj st hca ch ref, rfl, rfl⟩

/-- Witness for C1 at the alpine seed scenario on an empty cache. -/
theorem storeChart_fetchChart_metadata_roundtrip_witness :
    Function.Injective hashB ∧
    BlobsContentAddressed hashB emptyCache.blobs ∧
    ∃ fetched : Chart,
      fetchChartByRef (storeChartAtRef hashB emptyCache chAlpine refAlpine).2.2 refAlpine
        = .ok (some fetched, true) ∧
      fetched.metadata.name = chAlpine.metadata.name ∧
      fetched.metadata.version = chAlpine.metadata.version :=
  ⟨hashB_inj, by decide,
   storeChart_fetchChart_metadata_roundtrip hashB hashB_inj emptyCache (by decide)
     chAlpine refAlpine⟩

/-- C2 counterexample. Adding a manifest entry through AddManifest for a ref
that already has an index entry does not replace it: after two AddManifest
calls for the same ref the index holds two entries annotated with that ref. -/
theorem addManifest_duplicates_ref :
    countRefEntries idxTwice refAlpine = 2 ∧
    ¬ countRefEntries idxTwice refAlpine ≤ 1 := by
  decide

/-- C2 amended. AddManifest appends the new annotated manifest descriptor to
the end of index.Manifests unconditionally (never replacing an existing entry
for the ref), and updateIndexJson likewise appends the descriptor to the
manifests read from index.json and rewrites the file with schema version 2. -/
theorem addManifest_appends_entry (hash : Bytes → String) (idx : OCIIndex)
    (config : Descriptor) (layers : List Descriptor) (ref : String)
    (fsb : List (String × Bytes)) (layout : Option Bytes) (sv : Nat)
    (ms : List Descriptor) (root : String) (m : Descriptor) :
    (OCIIndex.addManifest hash idx config layers ref).1.manifests
        = idx.manifests ++ [mkManifestDescriptor hash config layers ref] ∧
    getRefAnnot (mkManifestDescriptor hash config layers ref) = ref ∧
    updateIndexJson
        { layout := layout, indexJson := some (encodeIdxFile sv ms), blobs := fsb } root m
      = .ok ({ layout := layout, indexJson := some (encodeIdxFile 2 (ms ++ [m])),
               blobs := fsb },
             [.readFile (joinPath root "index.json"),
              .writeFile (joinPath root "index.json") (encodeIdxFile 2 (ms ++ [m]))]) := by
  refine ⟨by simp [OCIIndex.addManifest], ?_, ?_⟩
  · simp [mkManifestDescriptor, getRefAnnot, List.lookup]
  · simp [updateIndexJson, decodeIdxFile_encodeIdxFile]

set_option maxRecDepth 40000 in
/-- C3. The claim says ListAllCharts resolves exactly the entries with a
non-empty ref annotation; the source skips them instead (the filter condition
is inverted), so a cache holding one chart under a non-empty ref lists
nothing even though FetchChartByRef resolves the very same entry. -/
theorem listAllCharts_inverted_filter :
    listAllCharts storedAlpine = .ok [] ∧
    (findRef storedAlpine.refs refAlpine).isSome = true ∧
    fetchChartByRef storedAlpine refAlpine = .ok (some chAlpine, true) := by
  refine ⟨by decide, by decide,
    fetch_after_store hashB hashB_inj emptyCache (by decide) chAlpine refAlpine⟩

/-- C4. For every reference whose tag is empty, PullChart fails with the
invalid-reference error (message: tag explicitly required) before contacting
the remote, and the cache state is unchanged by the call: the result carries
the error, the input state, and an empty list of remote contacts. -/
theorem pullChart_empty_tag_fails_early
    (remote : String → Except GoErr (Descriptor × List (String × Bytes)))
    (st : CacheState) (ref : Reference) (h : ref.tag = "") :
    pullChart remote st ref
      = (.error (.goError "tag explicitly required"), st, []) := by
  simp [pullChart, h]

/-- Witness for C4 with a tagless alpine ref on the empty cache. -/
theorem pullChart_empty_tag_fails_early_witness :
    ({ repo := "localhost:5000/alpine", tag := "" } : Reference).tag = "" ∧
    pullChart noRemote emptyCache { repo := "localhost:5000/alpine", tag := "" }
      = (.error (.goError "tag explicitly required"), emptyCache, []) :=
  ⟨rfl, pullChart_empty_tag_fails_early noRemote emptyCache
    { repo := "localhost:5000/alpine", tag := "" } rfl⟩

/-- C5. The claim says any validation violation during manifest unpacking is
returned as a malformed-manifest error rather than crashing; on a manifest
whose single layer has a media type other than the Helm content-layer type,
manifestDescriptorToChart instead dereferences the nil contentLayer pointer
and panics. -/
theorem manifestDescriptorToChart_panics_on_wrong_mediatype :
    manifestDescriptorToChart cacheWithWrongManifest wrongManifestDesc
      = .error (.goPanic nilDerefMsg) := by
  decide

/-- C9. The claim (and the spec) say DeleteBlob unlinks the blob file; the
source body is identical to FetchBlob: it reads and returns the bytes and the
file still exists afterwards (the state is unchanged and the only file
operation is a read). -/
theorem deleteBlob_leaves_file_in_place :
    OCIIndex.deleteBlob idxRoot fsWithBlob "d"
      = .ok ([1, 2, 3], fsWithBlob, [FsOp.readFile "root/blobs/sha256/d"]) ∧
    alookup fsWithBlob.blobs "d" = some [1, 2, 3] := by
  decide

/-- C10. For every index whose manifests list is non-empty, DeleteManifestByRef
reads the annotations of the not-yet-assigned nil result pointer inside the
loop and panics, so its normal completion is unreachable on non-empty
indexes. -/
theorem deleteManifestByRef_panics_on_nonempty (idx : OCIIndex) (ref : String)
    (h : idx.manifests ≠ []) :
    idx.deleteManifestByRef ref = .error (.goPanic nilDerefMsg) := by
  cases hm : idx.manifests with
  | nil => exact absurd hm h
  | cons m t =>
    simp [OCIIndex.deleteManifestByRef, hm, List.foldlM_cons, Bind.bind, Except.bind]

/-- Witness for C10 on a one-entry index. -/
theorem deleteManifestByRef_panics_on_nonempty_witness :
    ({ schemaVersion := 2, manifests := [cfgDescX], rootDir := "root" } : OCIIndex).manifests
        ≠ [] ∧
    OCIIndex.deleteManifestByRef
        { schemaVersion := 2, manifests := [cfgDescX], rootDir := "root" } "r"
      = .error (.goPanic nilDerefMsg) :=
  ⟨by decide,
   deleteManifestByRef_panics_on_nonempty
     { schemaVersion := 2, manifests := [cfgDescX], rootDir := "root" } "r" (by decide)⟩

/-- C6. Blobs are written at blobs/sha256/digest-of-their-bytes, so the
content-address invariant is preserved by both blob stores; the cache storeBlob
reports exists true exactly when the digest is already present and then leaves
the store untouched, and the index StoreBlob writes the blob at its digest
path (an idempotent overwrite when the same content is already stored). -/
theorem storeBlob_content_addressing (hash : Bytes → String) (st : CacheState)
    (b : Bytes) (idx : OCIIndex) (fs : IdxFS) (blob : Bytes)
    (hca : BlobsContentAddressed hash st.blobs)
    (hcafs : BlobsContentAddressed hash fs.blobs)
    (hroot : idx.rootDir ≠ "") :
    ((storeBlob hash st b).1 = (alookup st.blobs (hash b)).isSome) ∧
    ((storeBlob hash st b).1 = true → (storeBlob hash st b).2 = st) ∧
    ((storeBlob hash st b).1 = false →
      (storeBlob hash st b).2.blobs = st.blobs ++ [(hash b, b)]) ∧
    BlobsContentAddressed hash (storeBlob hash st b).2.blobs ∧
    OCIIndex.storeBlob hash idx fs blob
      = .ok (hash blob,
          { fs with blobs := mapInsert fs.blobs (hash blob) blob },
          [FsOp.writeFile
            (joinPath (joinPath (joinPath idx.rootDir "blobs") "sha256") (hash blob)) blob]) ∧
    (alookup fs.blobs (hash blob) = some blob →
      mapInsert fs.blobs (hash blob) blob = fs.blobs) ∧
    BlobsContentAddressed hash (mapInsert fs.blobs (hash blob) blob) := by
  refine ⟨?_, ?_, ?_, ?_, ?_, mapInsert_of_lookup_self, mapInsert_ca hcafs blob⟩
  · rw [storeBlob_eq]
  · rw [storeBlob_eq]
    cases h : alookup st.blobs (hash b) with
    | none => simp
    | some v => simp [storeBlobL, h]
  · rw [storeBlob_eq]
    cases h : alookup st.blobs (hash b) with
    | none => simp [storeBlobL, h]
    | some v => simp
  · rw [storeBlob_eq]
    exact storeBlobL_ca hca b
  · simp [OCIIndex.storeBlob, hroot, OCIIndex.getBlobPath, OCIIndex.getBlobDigest,
      Bind.bind, Except.bind]

/-- Witness for C6 on empty stores with the injective digest hashB. -/
theorem storeBlob_content_addressing_witness :
    BlobsContentAddressed hashB emptyCache.blobs ∧
    BlobsContentAddressed hashB fsEmpty.blobs ∧
    idxRoot.rootDir ≠ "" ∧
    (((storeBlob hashB emptyCache [1, 2]).1
        = (alookup emptyCache.blobs (hashB [1, 2])).isSome) ∧
     ((storeBlob hashB emptyCache [1, 2]).1 = true →
        (storeBlob hashB emptyCache [1, 2]).2 = emptyCache) ∧
     ((storeBlob hashB emptyCache [1, 2]).1 = false →
        (storeBlob hashB emptyCache [1, 2]).2.blobs
          = emptyCache.blobs ++ [(hashB [1, 2], [1, 2])]) ∧
     BlobsContentAddressed hashB (storeBlob hashB emptyCache [1, 2]).2.blobs ∧
     OCIIndex.storeBlob hashB idxRoot fsEmpty [1, 2]
       = .ok (hashB [1, 2],
           { fsEmpty with blobs := mapInsert fsEmpty.blobs (hashB [1, 2]) [1, 2] },
           [FsOp.writeFile
             (joinPath (joinPath (joinPath idxRoot.rootDir "blobs") "sha256")
               (hashB [1, 2])) [1, 2]]) ∧
     (alookup fsEmpty.blobs (hashB [1, 2]) = some [1, 2] →
        mapInsert fsEmpty.blobs (hashB [1, 2]) [1, 2] = fsEmpty.blobs) ∧
     BlobsContentAddressed hashB (mapInsert fsEmpty.blobs (hashB [1, 2]) [1, 2])) :=
  ⟨by decide, by decide, by decide,
   storeBlob_content_addressing hashB emptyCache [1, 2] idxRoot fsEmpty [1, 2]
     (by decide) (by decide) (by decide)⟩

/-- C7 counterexample. On a cache whose oci-layout marker already exists, Save
performs exactly one file operation: a direct write of index.json; there is no
temporary file and no rename, contradicting the claimed write-temp-then-rename
scheme. -/
theorem save_counterexample_direct_write :
    saveOps idxRoot fsLayoutOnly
      = [FsOp.writeFile "root/index.json" (encodeIdxFile 2 [])] ∧
    (saveOps idxRoot fsLayoutOnly).any FsOp.isRename = false := by
  decide

/-- C7 amended. Save writes the oci-layout marker only when it is missing, and
then writes index.json with one direct in-place WriteFile: the trace holds the
optional marker write followed by the index write, and contains no rename. -/
theorem save_layout_iff_missing_direct_write (idx : OCIIndex) (fs : IdxFS)
    (h : idx.rootDir ≠ "") :
    OCIIndex.save idx fs = .ok
      ({ layout := some (fs.layout.getD layoutBytes),
         indexJson := some (encodeIdxFile idx.schemaVersion idx.manifests),
         blobs := fs.blobs },
       (match fs.layout with
        | none => [FsOp.writeFile (joinPath idx.rootDir imageLayoutFile) layoutBytes]
        | some _ => []) ++
         [FsOp.writeFile (joinPath idx.rootDir "index.json")
           (encodeIdxFile idx.schemaVersion idx.manifests)]) ∧
    (((match fs.layout with
       | none => [FsOp.writeFile (joinPath idx.rootDir imageLayoutFile) layoutBytes]
       | some _ => []) ++
        [FsOp.writeFile (joinPath idx.rootDir "index.json")
          (encodeIdxFile idx.schemaVersion idx.manifests)]).any FsOp.isRename) = false := by
  cases hl : fs.layout with
  | none =>
    refine ⟨?_, by simp [FsOp.isRename]⟩
    simp [OCIIndex.save, OCIIndex.ensureOCILayoutFile, h, hl]
  | some l =>
    refine ⟨?_, by simp [FsOp.isRename]⟩
    simp [OCIIndex.save, OCIIndex.ensureOCILayoutFile, h, hl]

/-- Witness for C7 amended on a fresh directory. -/
theorem save_layout_iff_missing_direct_write_witness :
    idxRoot.rootDir ≠ "" ∧
    OCIIndex.save idxRoot fsEmpty = .ok
      ({ layout := some (fsEmpty.layout.getD layoutBytes),
         indexJson := some (encodeIdxFile idxRoot.schemaVersion idxRoot.manifests),
         blobs := fsEmpty.blobs },
       (match fsEmpty.layout with
        | none => [FsOp.writeFile (joinPath idxRoot.rootDir imageLayoutFile) layoutBytes]
        | some _ => []) ++
         [FsOp.writeFile (joinPath idxRoot.rootDir "index.json")
           (encodeIdxFile idxRoot.schemaVersion idxRoot.manifests)]) ∧
    (((match fsEmpty.layout with
       | none => [FsOp.writeFile (joinPath idxRoot.rootDir imageLayoutFile) layoutBytes]
       | some _ => []) ++
        [FsOp.writeFile (joinPath idxRoot.rootDir "index.json")
          (encodeIdxFile idxRoot.schemaVersion idxRoot.manifests)]).any FsOp.isRename)
      = false := by
  refine ⟨by decide, ?_⟩
  exact save_layout_iff_missing_direct_write idxRoot fsEmpty (by decide)

/-- C8. For every reference resolvable in the cache, RemoveChartByRef deletes
only the index entry for the ref and saves the index, reports that the ref
existed, and every blob present before the call is still present after it. -/
theorem removeChart_deletes_only_index_entry (st : CacheState) (ref : String)
    (ch : Chart) (h : fetchChartByRef st ref = .ok (some ch, true)) :
    removeChartByRef st ref = .ok (true, saveIndex (deleteReference st ref)) ∧
    (saveIndex (deleteReference st ref)).blobs = st.blobs ∧
    (saveIndex (deleteReference st ref)).refs
      = st.refs.filter (fun d => getRefAnnot d ≠ ref) ∧
    (saveIndex (deleteReference st ref)).fsIndexJson
      = some (encodeRefIndex (st.refs.filter (fun d => getRefAnnot d ≠ ref))) ∧
    ∀ p ∈ st.blobs, p ∈ (saveIndex (deleteReference st ref)).blobs := by
  refine ⟨?_, rfl, rfl, rfl, fun p hp => hp⟩
  simp [removeChartByRef, h]

/-- Witness for C8 on the stored alpine cache. -/
theorem removeChart_deletes_only_index_entry_witness :
    fetchChartByRef storedAlpine refAlpine = .ok (some chAlpine, true) ∧
    (removeChartByRef storedAlpine refAlpine
        = .ok (true, saveIndex (deleteReference storedAlpine refAlpine)) ∧
     (saveIndex (deleteReference storedAlpine refAlpine)).blobs = storedAlpine.blobs ∧
     (saveIndex (deleteReference storedAlpine refAlpine)).refs
       = storedAlpine.refs.filter (fun d => getRefAnnot d ≠ refAlpine) ∧
     (saveIndex (deleteReference storedAlpine refAlpine)).fsIndexJson
       = some (encodeRefIndex
           (storedAlpine.refs.filter (fun d => getRefAnnot d ≠ refAlpine))) ∧
     ∀ p ∈ storedAlpine.blobs,
       p ∈ (saveIndex (deleteReference storedAlpine refAlpine)).blobs) :=
  ⟨fetch_after_store hashB hashB_inj emptyCache (by decide) chAlpine refAlpine,
   removeChart_deletes_only_index_entry storedAlpine refAlpine chAlpine
     (fetch_after_store hashB hashB_inj emptyCache (by decide) chAlpine refAlpine)⟩
